import Mathlib

/-!
Verification development for the OpenMarch drill-editing core: data model,
action dispatcher, keyboard dispatch, canvas marcher synchronization,
viewport zoom, and step-size geometry, shallowly embedded from the
TypeScript sources.
-/

/-- A marcher: a performer with a stable identity (`id`). -/
structure Marcher where
  id : Int
deriving DecidableEq, Repr

/-- A page: stable identity, duration in counts, and a sequence order.
The `counts` field is the duration used by the step-size geometry. -/
structure Page where
  id : Int
  counts : Rat
  order : Int
deriving DecidableEq, Repr

/-- A marcher page (position record): one `(marcher_id, page_id)` pair with
pixel coordinates `x`, `y`. -/
structure MarcherPage where
  marcher_id : Int
  page_id : Int
  x : Rat
  y : Rat
deriving DecidableEq, Repr

/-- Field properties; the step-size geometry consumes `pixelsPerStep`. -/
structure FieldProperties where
  pixelsPerStep : Rat
deriving DecidableEq, Repr

/-- UI settings toggle state, as in the `UiSettings` interface. -/
structure UiSettings where
  isPlaying : Bool
  lockX : Bool
  lockY : Bool
  previousPaths : Bool
  nextPaths : Bool
deriving DecidableEq, Repr

/-- Modelled from the spec: pages have a strictly ordered sequence index and
`Page.getPreviousPage` returns the page immediately before the given page in
that total order (the greatest `order` below the given page's `order`), or
none when the given page is first.  The `Page` class itself is not among the
provided sources. -/
def Page.getPreviousPage (p : Page) (pages : List Page) : Option Page :=
  (pages.filter (fun q => q.order < p.order)).foldl
    (fun acc q =>
      match acc with
      | none => some q
      | some r => if r.order < q.order then some q else some r)
    none

/-- Modelled from the spec: `Page.getNextPage` returns the page immediately
after the given page in the sequence order, or none when it is last. -/
def Page.getNextPage (p : Page) (pages : List Page) : Option Page :=
  (pages.filter (fun q => p.order < q.order)).foldl
    (fun acc q =>
      match acc with
      | none => some q
      | some r => if q.order < r.order then some q else some r)
    none

/-- Modelled from the spec: `Page.getFirstPage` returns the page with the
least sequence order. -/
def Page.getFirstPage (pages : List Page) : Option Page :=
  pages.foldl
    (fun acc q =>
      match acc with
      | none => some q
      | some r => if q.order < r.order then some q else some r)
    none

/-- Modelled from the spec: `Page.getLastPage` returns the page with the
greatest sequence order. -/
def Page.getLastPage (pages : List Page) : Option Page :=
  pages.foldl
    (fun acc q =>
      match acc with
      | none => some q
      | some r => if r.order < q.order then some q else some r)
    none

/-- The registered actions enum, in source declaration order. -/
inductive RegisteredActionsEnum where
  | nextPage
  | lastPage
  | previousPage
  | firstPage
  | playPause
  | setAllMarchersToPreviousPage
  | setSelectedMarcherToPreviousPage
  | snapToNearestWhole
  | lockX
  | lockY
  | toggleNextPagePaths
  | togglePreviousPagePaths
deriving DecidableEq, Repr

/-- The application state read by the action handler component
(`RegisteredActionsHandler`): pages, position records, the selection, the
field configuration, UI settings and the playback flag. -/
structure AppState where
  pages : List Page
  marcherPages : List MarcherPage
  selectedPage : Option Page
  selectedMarchers : List Marcher
  fieldProperties : Option FieldProperties
  uiSettings : UiSettings
  isPlaying : Bool
deriving DecidableEq, Repr

/-- An observable effect of dispatching an action: a console error report or
one of the state mutations (page selection, playback flag, a batch position
update submission, or a UI-settings write). -/
inductive Effect where
  | consoleError (msg : String)
  | setSelectedPage (p : Page)
  | setIsPlaying (b : Bool)
  | updateMarcherPages (changes : List MarcherPage)
  | setUiSettings (s : UiSettings)
deriving DecidableEq, Repr

/-- Whether an effect mutates position, selection, playback or settings
state (everything except a console error report). -/
def Effect.isMutation : Effect → Bool
  | Effect.consoleError _ => false
  | _ => true

/-- The `find` over `marcherPages` in the `setSelectedMarcherToPreviousPage`
case.  The predicate is
`mp.page_id === previousPage?.id && mp.marcher_id === selectedMarchers[0].id`;
JavaScript evaluates the second conjunct only when the first holds, and
`selectedMarchers[0].id` throws a TypeError when the selection is empty. -/
def findPreviousSelectedMarcherPage (selectedMarchers : List Marcher)
    (previousPage : Option Page) :
    List MarcherPage → Except String (Option MarcherPage)
  | [] => Except.ok none
  | mp :: rest =>
    if (match previousPage with
        | none => false
        | some p => mp.page_id == p.id) then
      match selectedMarchers.head? with
      | none => Except.error "TypeError: selectedMarchers[0] is undefined"
      | some m =>
        if mp.marcher_id == m.id then Except.ok (some mp)
        else findPreviousSelectedMarcherPage selectedMarchers previousPage rest
    else findPreviousSelectedMarcherPage selectedMarchers previousPage rest

/-- `getSelectedMarcherPages`: the MarcherPages for the selected marchers on
the selected page.  Mirrors the source: with no selected page it reports an
error and returns an empty list; otherwise it maps each selected marcher to
`selectedPageMarcherPages.find(...)`, whose result may be undefined (the
source silences this with a non-null assertion), hence `Option` entries. -/
def getSelectedMarcherPages (st : AppState) :
    List Effect × List (Option MarcherPage) :=
  match st.selectedPage with
  | none => ([Effect.consoleError "No selected page"], [])
  | some sp =>
    let selectedPageMarcherPages :=
      st.marcherPages.filter (fun mp => mp.page_id == sp.id)
    ([],
      st.selectedMarchers.map (fun m =>
        selectedPageMarcherPages.find? (fun mp => mp.marcher_id == m.id)))

/-- Modelled from the spec: `getRoundCoordinates` (in `CoordinateActions`,
not among the provided sources) rounds each selected marcher position to the
nearest whole step along the unlocked axes.  Dereferencing an undefined
entry of its input array throws. -/
def getRoundCoordinates (marcherPages : List (Option MarcherPage))
    (pixelsPerStep : Rat) (xAxis yAxis : Bool) :
    Except String (List MarcherPage) :=
  marcherPages.mapM (fun mp? =>
    match mp? with
    | none => Except.error "TypeError: marcherPage is undefined"
    | some mp =>
      Except.ok
        { mp with
          x := if xAxis then (round (mp.x / pixelsPerStep) : Int) * pixelsPerStep else mp.x
          y := if yAxis then (round (mp.y / pixelsPerStep) : Int) * pixelsPerStep else mp.y })

/-- `triggerAction`: dispatch a registered action against the application
state.  The result is the list of observable effects, or an error when the
JavaScript code would throw.  Mirrors the source switch: a missing selected
page or missing field properties is reported and aborts before the switch. -/
def triggerAction (st : AppState) (action : RegisteredActionsEnum) :
    Except String (List Effect) :=
  match st.selectedPage with
  | none => Except.ok [Effect.consoleError "No selected page"]
  | some selectedPage =>
    match st.fieldProperties with
    | none => Except.ok [Effect.consoleError "No field properties"]
    | some fieldProperties =>
      match action with
      | RegisteredActionsEnum.nextPage =>
        Except.ok
          (match Page.getNextPage selectedPage st.pages with
          | some p => [Effect.setSelectedPage p]
          | none => [])
      | RegisteredActionsEnum.lastPage =>
        Except.ok
          (match Page.getLastPage st.pages with
          | some p => [Effect.setSelectedPage p]
          | none => [])
      | RegisteredActionsEnum.previousPage =>
        Except.ok
          (match Page.getPreviousPage selectedPage st.pages with
          | some p => [Effect.setSelectedPage p]
          | none => [])
      | RegisteredActionsEnum.firstPage =>
        Except.ok
          (match Page.getFirstPage st.pages with
          | some p => [Effect.setSelectedPage p]
          | none => [])
      | RegisteredActionsEnum.playPause =>
        Except.ok [Effect.setIsPlaying (!st.isPlaying)]
      | RegisteredActionsEnum.setAllMarchersToPreviousPage =>
        let previousPage := Page.getPreviousPage selectedPage st.pages
        let previousPageMarcherPages :=
          st.marcherPages.filter (fun mp =>
            match previousPage with
            | none => false
            | some p => mp.page_id == p.id)
        let changes :=
          previousPageMarcherPages.map (fun mp => { mp with page_id := selectedPage.id })
        Except.ok [Effect.updateMarcherPages changes]
      | RegisteredActionsEnum.setSelectedMarcherToPreviousPage =>
        let previousPage := Page.getPreviousPage selectedPage st.pages
        match findPreviousSelectedMarcherPage st.selectedMarchers previousPage
            st.marcherPages with
        | Except.error e => Except.error e
        | Except.ok none => Except.ok []
        | Except.ok (some previousMarcherPage) =>
          Except.ok
            [Effect.updateMarcherPages
              [{ previousMarcherPage with page_id := selectedPage.id }]]
      | RegisteredActionsEnum.snapToNearestWhole =>
        let (effs, selMPs) := getSelectedMarcherPages st
        match getRoundCoordinates selMPs fieldProperties.pixelsPerStep
            (!st.uiSettings.lockX) (!st.uiSettings.lockY) with
        | Except.error e => Except.error e
        | Except.ok roundedCoords =>
          Except.ok (effs ++ [Effect.updateMarcherPages roundedCoords])
      | RegisteredActionsEnum.lockX =>
        Except.ok
          [Effect.setUiSettings { st.uiSettings with lockX := !st.uiSettings.lockX }]
      | RegisteredActionsEnum.lockY =>
        Except.ok
          [Effect.setUiSettings { st.uiSettings with lockY := !st.uiSettings.lockY }]
      | RegisteredActionsEnum.toggleNextPagePaths =>
        Except.ok
          [Effect.setUiSettings { st.uiSettings with nextPaths := !st.uiSettings.nextPaths }]
      | RegisteredActionsEnum.togglePreviousPagePaths =>
        Except.ok
          [Effect.setUiSettings
            { st.uiSettings with previousPaths := !st.uiSettings.previousPaths }]

/-- JavaScript `toLowerCase` on the (ASCII) keys used here, written over
the character list so it evaluates in proofs. -/
def lowerString (s : String) : String :=
  ⟨s.data.map Char.toLower⟩

/-- JavaScript `toUpperCase` on the (ASCII) keys used here, written over
the character list so it evaluates in proofs. -/
def upperString (s : String) : String :=
  ⟨s.data.map Char.toUpper⟩

/-- A keyboard shortcut: a key plus modifier flags.  The source constructor
lower-cases the key, so `KeyboardShortcut.make` is the constructor and the
structure holds the already lower-cased key. -/
structure KeyboardShortcut where
  key : String
  control : Bool
  alt : Bool
  shift : Bool
deriving DecidableEq, Repr

/-- The `KeyboardShortcut` constructor: lower-cases the key. -/
def KeyboardShortcut.make (key : String) (control alt shift : Bool) :
    KeyboardShortcut :=
  ⟨lowerString key, control, alt, shift⟩

/-- `KeyboardShortcut.toString`: the canonical chord string,
e.g. "Ctrl + Shift + Q"; the space key renders as "Space". -/
def KeyboardShortcut.canonical (ks : KeyboardShortcut) : String :=
  let keyStr := if ks.key = " " then "Space" else upperString ks.key
  (if ks.control then "Ctrl + " else "")
    ++ (if ks.alt then "Alt + " else "")
    ++ (if ks.shift then "Shift + " else "")
    ++ keyStr

/-- A registered action descriptor: optional shortcut, description, and the
derived instructional strings. -/
structure RegisteredAction where
  keyboardShortcut : Option KeyboardShortcut
  desc : String
  instructionalString : String
deriving DecidableEq, Repr

/-- The `RegisteredAction` constructor: derives the instructional string
from the description and the shortcut. -/
def RegisteredAction.make (keyboardShortcut : Option KeyboardShortcut)
    (desc : String) : RegisteredAction :=
  let keyString :=
    match keyboardShortcut with
    | some ks => " [" ++ ks.canonical ++ "]"
    | none => ""
  ⟨keyboardShortcut, desc, desc ++ keyString⟩

/-- `RegisteredActionsObjects`: the static registry mapping each action to
its descriptor, with the shortcuts from the source. -/
def RegisteredActionsObjects : RegisteredActionsEnum → RegisteredAction
  | RegisteredActionsEnum.nextPage =>
    RegisteredAction.make (some (KeyboardShortcut.make "e" false false false)) "Next page"
  | RegisteredActionsEnum.lastPage =>
    RegisteredAction.make (some (KeyboardShortcut.make "e" false false true)) "Last page"
  | RegisteredActionsEnum.previousPage =>
    RegisteredAction.make (some (KeyboardShortcut.make "q" false false false)) "Previous page"
  | RegisteredActionsEnum.firstPage =>
    RegisteredAction.make (some (KeyboardShortcut.make "q" false false true)) "First page"
  | RegisteredActionsEnum.playPause =>
    RegisteredAction.make (some (KeyboardShortcut.make " " false false false)) "Play or pause"
  | RegisteredActionsEnum.setAllMarchersToPreviousPage =>
    RegisteredAction.make (some (KeyboardShortcut.make "p" true false true))
      "Set all marcher coordinates to previous page"
  | RegisteredActionsEnum.setSelectedMarcherToPreviousPage =>
    RegisteredAction.make (some (KeyboardShortcut.make "p" false false true))
      "Set selected marcher coordinates to previous page"
  | RegisteredActionsEnum.snapToNearestWhole =>
    RegisteredAction.make (some (KeyboardShortcut.make "1" false false false)) "Snap to nearest whole"
  | RegisteredActionsEnum.lockX =>
    RegisteredAction.make (some (KeyboardShortcut.make "z" false false false)) "Lock X axis"
  | RegisteredActionsEnum.lockY =>
    RegisteredAction.make (some (KeyboardShortcut.make "x" false false false)) "Lock Y axis"
  | RegisteredActionsEnum.toggleNextPagePaths =>
    RegisteredAction.make (some (KeyboardShortcut.make "m" false false false))
      "Toggle viewing next page paths"
  | RegisteredActionsEnum.togglePreviousPagePaths =>
    RegisteredAction.make (some (KeyboardShortcut.make "n" false false false))
      "Toggle viewing previous page paths"

/-- `Object.values(RegisteredActionsEnum)` in declaration order. -/
def registeredActionsEnumValues : List RegisteredActionsEnum :=
  [RegisteredActionsEnum.nextPage, RegisteredActionsEnum.lastPage,
    RegisteredActionsEnum.previousPage, RegisteredActionsEnum.firstPage,
    RegisteredActionsEnum.playPause,
    RegisteredActionsEnum.setAllMarchersToPreviousPage,
    RegisteredActionsEnum.setSelectedMarcherToPreviousPage,
    RegisteredActionsEnum.snapToNearestWhole,
    RegisteredActionsEnum.lockX, RegisteredActionsEnum.lockY,
    RegisteredActionsEnum.toggleNextPagePaths,
    RegisteredActionsEnum.togglePreviousPagePaths]

/-- The chord dictionary entries, built as in the source effect:
each action contributes `(shortcut string or "", action)`. -/
def keyboardShortcutDictionary : List (String × RegisteredActionsEnum) :=
  registeredActionsEnumValues.map (fun action =>
    ((match (RegisteredActionsObjects action).keyboardShortcut with
      | some ks => ks.canonical
      | none => ""), action))

/-- Lookup in a JavaScript object built with `Object.fromEntries`: for
duplicate keys the later entry silently overwrites the earlier one. -/
def jsObjectLookup (entries : List (String × RegisteredActionsEnum))
    (key : String) : Option RegisteredActionsEnum :=
  entries.foldl (fun acc e => if e.1 = key then some e.2 else acc) none

/-- A key-down event: the key and the modifier flags. -/
structure KeyDownEvent where
  key : String
  ctrlKey : Bool
  metaKey : Bool
  altKey : Bool
  shiftKey : Bool
deriving DecidableEq, Repr

/-- The outcome of `handleKeyDown`: which action (if any) was triggered and
whether the event's default behavior was suppressed. -/
structure KeyDownOutcome where
  triggered : Option RegisteredActionsEnum
  defaultPrevented : Bool
deriving DecidableEq, Repr

/-- The chord string built from a key-down event: key lower-cased,
control-or-platform-meta, alt, shift. -/
def chordOfEvent (e : KeyDownEvent) : String :=
  (KeyboardShortcut.make e.key (e.ctrlKey || e.metaKey) e.altKey e.shiftKey).canonical

/-- `handleKeyDown`: if the focused element is an editable text control
(input, textarea, select, contenteditable) nothing happens; otherwise the
chord is built from the event and looked up, and on a hit the action is
triggered and the default behavior suppressed. -/
def handleKeyDown (editableFocused : Bool) (e : KeyDownEvent) : KeyDownOutcome :=
  if editableFocused then ⟨none, false⟩
  else
    match jsObjectLookup keyboardShortcutDictionary (chordOfEvent e) with
    | some action => ⟨some action, true⟩
    | none => ⟨none, false⟩

/-- A live visual marker (`CanvasMarcher`) on the canvas: bound marcher
identity (`marcherObj.id`) plus current coordinates. -/
structure CanvasMarcher where
  cmId : Int
  x : Rat
  y : Rat
deriving DecidableEq, Repr

/-- `setMarcherCoords` applied to the first canvas marcher with the given
marcher identity: updates its coordinates in place, changing nothing else. -/
def setFirstMarcherCoords : List CanvasMarcher → Int → Rat → Rat → List CanvasMarcher
  | [], _, _, _ => []
  | cm :: rest, i, nx, ny =>
    if cm.cmId = i then { cm with x := nx, y := ny } :: rest
    else cm :: setFirstMarcherCoords rest i nx ny

/-- The `forEach` loop of `renderMarchers`: the snapshot of canvas marchers
is taken once before the loop (`getCanvasMarchers`), each position whose
marcher is found in the snapshot has its coordinates updated, a position
absent from the snapshot adds a new `CanvasMarcher` when its marcher exists
in `allMarchers` and is skipped with a reported error otherwise. -/
def renderMarchersLoop (snapshot : List CanvasMarcher) (allMarchers : List Marcher) :
    List MarcherPage → List CanvasMarcher → List CanvasMarcher
  | [], canvas => canvas
  | mp :: rest, canvas =>
    match snapshot.find? (fun cm => cm.cmId == mp.marcher_id) with
    | some _ =>
      renderMarchersLoop snapshot allMarchers rest
        (setFirstMarcherCoords canvas mp.marcher_id mp.x mp.y)
    | none =>
      match allMarchers.find? (fun m => m.id == mp.marcher_id) with
      | none => renderMarchersLoop snapshot allMarchers rest canvas
      | some m =>
        renderMarchersLoop snapshot allMarchers rest (canvas ++ [⟨m.id, mp.x, mp.y⟩])

/-- `renderMarchers`: synchronize the live canvas markers with the supplied
position set for the selected page. -/
def renderMarchers (canvas : List CanvasMarcher)
    (selectedMarcherPages : List MarcherPage) (allMarchers : List Marcher) :
    List CanvasMarcher :=
  renderMarchersLoop canvas allMarchers selectedMarcherPages canvas

/-- The marcher identities added by one `renderMarchers` call: positions
whose marcher is absent from the snapshot but present in `allMarchers`. -/
def renderAddedIds (snapshot : List CanvasMarcher) (allMarchers : List Marcher)
    (positions : List MarcherPage) : List Int :=
  positions.filterMap (fun mp =>
    match snapshot.find? (fun cm => cm.cmId == mp.marcher_id) with
    | some _ => none
    | none =>
      match allMarchers.find? (fun m => m.id == mp.marcher_id) with
      | none => none
      | some m => some m.id)

/-- A mouse-wheel event on the canvas: scroll delta and cursor offset. -/
structure CanvasWheelEvent where
  deltaY : Int
  offsetX : Rat
  offsetY : Rat
deriving DecidableEq, Repr

/-- The `zoomToPoint` call made by `handleMouseWheel`: the pivot point
passed (the cursor offset) and the zoom value set. -/
structure ZoomToPointCall where
  pointX : Rat
  pointY : Rat
  zoom : Rat
deriving DecidableEq, Repr

/-- `handleMouseWheel`: multiply the current zoom by `0.999 ** delta`,
clamp to at most 25 then at least 0.35, and zoom to the cursor point. -/
def handleMouseWheel (currentZoom : Rat) (e : CanvasWheelEvent) : ZoomToPointCall :=
  let delta := e.deltaY
  let zoom0 := currentZoom * (999 / 1000 : Rat) ^ delta
  let zoom1 := if zoom0 > 25 then 25 else zoom0
  let zoom2 := if zoom1 < 7 / 20 then 7 / 20 else zoom1
  ⟨e.offsetX, e.offsetY, zoom2⟩

/-- Modelled from the spec: the reference clamp function,
`clamp(x, lo, hi) = max lo (min hi x)`. -/
def clampSpec (lo hi x : Rat) : Rat :=
  max lo (min hi x)

/-- The zoom after a sequence of wheel events. -/
def zoomAfterWheelEvents (initialZoom : Rat) (events : List CanvasWheelEvent) : Rat :=
  events.foldl (fun z e => (handleMouseWheel z e).zoom) initialZoom

/-- A JavaScript number as produced and consumed by the step-size geometry:
NaN, the two infinities, or a finite value modelled as a real number. -/
inductive JsNum where
  | nan : JsNum
  | posInf : JsNum
  | negInf : JsNum
  | fin : Real → JsNum

/-- JavaScript subtraction on `JsNum`. -/
def JsNum.sub : JsNum → JsNum → JsNum
  | JsNum.nan, _ => JsNum.nan
  | _, JsNum.nan => JsNum.nan
  | JsNum.posInf, JsNum.posInf => JsNum.nan
  | JsNum.posInf, _ => JsNum.posInf
  | JsNum.negInf, JsNum.negInf => JsNum.nan
  | JsNum.negInf, _ => JsNum.negInf
  | JsNum.fin _, JsNum.posInf => JsNum.negInf
  | JsNum.fin _, JsNum.negInf => JsNum.posInf
  | JsNum.fin a, JsNum.fin b => JsNum.fin (a - b)

/-- JavaScript `x > 0` on `JsNum` (false for NaN). -/
def JsNum.gtZero : JsNum → Prop
  | JsNum.posInf => True
  | JsNum.fin v => 0 < v
  | _ => False

/-- JavaScript `a < b` on `JsNum` (false whenever NaN is involved). -/
def JsNum.jsLt : JsNum → JsNum → Prop
  | JsNum.nan, _ => False
  | _, JsNum.nan => False
  | JsNum.negInf, JsNum.negInf => False
  | JsNum.negInf, _ => True
  | _, JsNum.negInf => False
  | JsNum.posInf, _ => False
  | JsNum.fin _, JsNum.posInf => True
  | JsNum.fin a, JsNum.fin b => a < b

/-- The `INCHES_PER_YARD` constant from the source. -/
def INCHES_PER_YARD : Real := 36

/-- The Euclidean pixel distance computed by `calculateStepSize`:
`Math.sqrt(xDistance ** 2 + yDistance ** 2)` over the absolute coordinate
differences. -/
noncomputable def distanceInPixels (startingX startingY endingX endingY : Rat) : Real :=
  let xDistance : Real := |(endingX : Real) - (startingX : Real)|
  let yDistance : Real := |(endingY : Real) - (startingY : Real)|
  Real.sqrt (xDistance ^ 2 + yDistance ^ 2)

open Classical in
/-- `StepSize.calculateStepSize`: NaN when the page has zero counts,
Infinity when the distance is zero (a hold), and otherwise the number of
steps per five yards derived from the pixel distance, the pixels-per-step
scale and the counts. -/
noncomputable def calculateStepSize (startingX startingY endingX endingY counts
    pixelsPerStep : Rat) : JsNum :=
  if counts = 0 then JsNum.nan
  else
    if distanceInPixels startingX startingY endingX endingY = 0 then JsNum.posInf
    else
      let distanceIn8to5Steps :=
        distanceInPixels startingX startingY endingX endingY / (pixelsPerStep : Real)
      let distanceCoveredInInches := distanceIn8to5Steps * 22.5
      let distanceInInchesPerStep := distanceCoveredInInches / (counts : Real)
      JsNum.fin ((INCHES_PER_YARD * 5) / distanceInInchesPerStep)

/-- A derived step size: the marcher it belongs to and its steps per five
yards (a JavaScript number). -/
structure StepSize where
  marcher_id : Int
  stepsPerFiveYards : JsNum

/-- The `StepSize` constructor: computes the steps per five yards from the
start and end coordinates, the counts and the field properties. -/
noncomputable def StepSize.make (marcher_id : Int)
    (startingX startingY endingX endingY counts : Rat)
    (fieldProperties : FieldProperties) : StepSize :=
  ⟨marcher_id,
    calculateStepSize startingX startingY endingX endingY counts
      fieldProperties.pixelsPerStep⟩

/-- The display classification produced by `StepSize.displayString`:
"Undefined", "Hold", "Tiny", or the string `r.toLocaleString() + " to 5"`
for the value rounded to one decimal (`toFive r`). -/
inductive DisplayClass where
  | undefinedClass : DisplayClass
  | holdClass : DisplayClass
  | tinyClass : DisplayClass
  | toFive : JsNum → DisplayClass

open Classical in
/-- `StepSize.displayString`: NaN displays "Undefined", Infinity displays
"Hold", a value that rounds above 64 displays "Tiny", and otherwise the
value rounded to one decimal displays as "(rounded) to 5". -/
noncomputable def StepSize.displayString (s : StepSize) : DisplayClass :=
  match s.stepsPerFiveYards with
  | JsNum.nan => DisplayClass.undefinedClass
  | JsNum.posInf => DisplayClass.holdClass
  | JsNum.negInf => DisplayClass.toFive JsNum.negInf
  | JsNum.fin v =>
    let roundedSteps : Real := ((round (v * 10) : Int) : Real) / 10
    if roundedSteps > 64 then DisplayClass.tinyClass
    else DisplayClass.toFive (JsNum.fin roundedSteps)

/-- `StepSize.createStepSizeForMarcher`: undefined without a starting page
or a page, and otherwise the step size from the starting coordinates to the
ending coordinates over the page's counts. -/
noncomputable def StepSize.createStepSizeForMarcher
    (startingPage : Option MarcherPage) (endingPage : MarcherPage)
    (page : Option Page) (fieldProperties : FieldProperties) : Option StepSize :=
  match startingPage, page with
  | some sp, some p =>
    some (StepSize.make endingPage.marcher_id sp.x sp.y endingPage.x endingPage.y
      p.counts fieldProperties)
  | _, _ => none

/-- `StepSize.createStepSizesForMarchers`: starting positions are the
records whose `page_id` equals `page.id - 1`, ending positions those on
`page.id`; each marcher maps to its step size when both are found and is
filtered out otherwise. -/
noncomputable def StepSize.createStepSizesForMarchers (marchers : List Marcher)
    (marcherPages : List MarcherPage) (page : Page)
    (fieldProperties : FieldProperties) : List StepSize :=
  let startingPages := marcherPages.filter (fun mp => mp.page_id == page.id - 1)
  let endingPages := marcherPages.filter (fun mp => mp.page_id == page.id)
  (marchers.map (fun marcher =>
    match endingPages.find? (fun mp => mp.marcher_id == marcher.id) with
    | none => none
    | some endingPage =>
      StepSize.createStepSizeForMarcher
        (startingPages.find? (fun mp => mp.marcher_id == marcher.id))
        endingPage (some page) fieldProperties)).reduceOption

/-- `StepSize.compare`: `b.stepsPerFiveYards - a.stepsPerFiveYards`, so a
positive result means the first step size is the physically larger step. -/
def StepSize.compare (a b : StepSize) : JsNum :=
  JsNum.sub b.stepsPerFiveYards a.stepsPerFiveYards

open Classical in
/-- The ordering the comparator induces on the sort: `a` may precede `b`
exactly when `compare a b` is not positive (NaN compares as equal). -/
noncomputable def StepSize.leBy (a b : StepSize) : Bool :=
  @decide (¬ JsNum.gtZero (StepSize.compare a b)) (Classical.propDecidable _)

/-- Stable insertion into a list sorted by `le`, used to model the
JavaScript `Array.prototype.sort` with a comparator. -/
def insertOrdered {α : Type} (le : α → α → Bool) (x : α) : List α → List α
  | [] => [x]
  | y :: ys => if le x y then x :: y :: ys else y :: insertOrdered le x ys

/-- Sorting by `le` (insertion sort), modelling `Array.prototype.sort`. -/
def sortJs {α : Type} (le : α → α → Bool) : List α → List α
  | [] => []
  | x :: xs => insertOrdered le x (sortJs le xs)

/-- The result record of `getMinAndMaxStepSizesForMarchers`. -/
structure MinMaxStepSizes where
  min : Option StepSize
  max : Option StepSize

/-- `StepSize.getMinAndMaxStepSizesForMarchers`: sort the computed step
sizes with the comparator and return the first element as `min` and the
last as `max`, or both undefined when the list is empty. -/
noncomputable def StepSize.getMinAndMaxStepSizesForMarchers
    (marchers : List Marcher) (marcherPages : List MarcherPage) (page : Page)
    (fieldProperties : FieldProperties) : MinMaxStepSizes :=
  let stepSizes :=
    sortJs StepSize.leBy
      (StepSize.createStepSizesForMarchers marchers marcherPages page fieldProperties)
  if stepSizes.isEmpty then ⟨none, none⟩
  else ⟨stepSizes.head?, stepSizes.getLast?⟩

/-- A concrete application state whose previous page holds 50 positions,
used to exercise the batch-copy action. -/
def exampleBatchState : AppState where
  pages := [⟨1, 8, 1⟩, ⟨2, 8, 2⟩]
  marcherPages := (List.range 50).map (fun i => ⟨(i : Int), 1, 0, 0⟩)
  selectedPage := some ⟨2, 8, 2⟩
  selectedMarchers := []
  fieldProperties := some ⟨10⟩
  uiSettings := ⟨false, false, false, false, false⟩
  isPlaying := false

/-- A concrete application state with a selected page, field properties, a
position on the previous page, and an empty selected-marcher list. -/
def emptySelectionState : AppState where
  pages := [⟨1, 8, 1⟩, ⟨2, 8, 2⟩]
  marcherPages := [⟨1, 1, 0, 0⟩]
  selectedPage := some ⟨2, 8, 2⟩
  selectedMarchers := []
  fieldProperties := some ⟨10⟩
  uiSettings := ⟨false, false, false, false, false⟩
  isPlaying := false

/-- C5: every action handler requires a current page and a field
configuration; if either is absent when an action is triggered, the
dispatcher reports an error and returns without mutating any position,
selection, or settings state (the sole effect is a console error report,
which is not a mutation, and no exception is thrown). -/
theorem precondition_guard_c5 (st : AppState) (action : RegisteredActionsEnum)
    (h : st.selectedPage = none ∨ st.fieldProperties = none) :
    ∃ msg, triggerAction st action = Except.ok [Effect.consoleError msg] ∧
      Effect.isMutation (Effect.consoleError msg) = false := by
  rcases h with h | h
  · exact ⟨"No selected page", by simp [triggerAction, h], rfl⟩
  · cases hsp : st.selectedPage with
    | none => exact ⟨"No selected page", by simp [triggerAction, hsp], rfl⟩
    | some sp => exact ⟨"No field properties", by simp [triggerAction, hsp, h], rfl⟩

/-- Witness for C5 at a concrete state with no selected page. -/
theorem precondition_guard_c5_witness :
    ∃ msg,
      triggerAction ⟨[], [], none, [], none, ⟨false, false, false, false, false⟩, false⟩
          RegisteredActionsEnum.nextPage =
        Except.ok [Effect.consoleError msg] ∧
      Effect.isMutation (Effect.consoleError msg) = false :=
  precondition_guard_c5 _ _ (Or.inl rfl)

/-- C6: the apply-previous-page's-positions-to-current-page action
(all-marchers scope) computes one patch per marcher position on the
previous page, retargeted to the current page, and submits them in exactly
one `updateMarcherPages` call (the effect list holds exactly one
submission, whose patch list is the complete mapped list, with one entry
per previous-page position). -/
theorem batch_copy_atomic_c6 (st : AppState) (sp : Page) (fp : FieldProperties)
    (h1 : st.selectedPage = some sp) (h2 : st.fieldProperties = some fp) :
    triggerAction st RegisteredActionsEnum.setAllMarchersToPreviousPage =
      Except.ok [Effect.updateMarcherPages
        ((st.marcherPages.filter (fun mp =>
            match Page.getPreviousPage sp st.pages with
            | none => false
            | some p => mp.page_id == p.id)).map
          (fun mp => { mp with page_id := sp.id }))] ∧
    ((st.marcherPages.filter (fun mp =>
        match Page.getPreviousPage sp st.pages with
        | none => false
        | some p => mp.page_id == p.id)).map
      (fun mp => { mp with page_id := sp.id })).length =
      (st.marcherPages.filter (fun mp =>
        match Page.getPreviousPage sp st.pages with
        | none => false
        | some p => mp.page_id == p.id)).length := by
  refine ⟨by simp [triggerAction, h1, h2], by simp⟩

/-- Witness for C6: at the concrete 50-position state, exactly one patch
list is submitted and it has exactly 50 entries. -/
theorem batch_copy_atomic_c6_witness :
    triggerAction exampleBatchState RegisteredActionsEnum.setAllMarchersToPreviousPage =
      Except.ok [Effect.updateMarcherPages
        ((exampleBatchState.marcherPages.filter (fun mp =>
            match Page.getPreviousPage ⟨2, 8, 2⟩ exampleBatchState.pages with
            | none => false
            | some p => mp.page_id == p.id)).map
          (fun mp => { mp with page_id := (2 : Int) }))] ∧
    ((exampleBatchState.marcherPages.filter (fun mp =>
        match Page.getPreviousPage ⟨2, 8, 2⟩ exampleBatchState.pages with
        | none => false
        | some p => mp.page_id == p.id)).map
      (fun mp => { mp with page_id := (2 : Int) })).length = 50 := by
  refine ⟨(batch_copy_atomic_c6 exampleBatchState ⟨2, 8, 2⟩ ⟨10⟩ rfl rfl).1, ?_⟩
  decide

/-- C2 (failing-input evaluation): dispatching
`setSelectedMarcherToPreviousPage` with a selected page and field
properties present, an empty selected-marcher list, and a position on the
previous page throws a TypeError (the embedded evaluation yields an error,
not a reported no-op). -/
theorem empty_selection_throw_c2 :
    triggerAction emptySelectionState
      RegisteredActionsEnum.setSelectedMarcherToPreviousPage =
      Except.error "TypeError: selectedMarchers[0] is undefined" := by
  rfl

/-- C7: on every key-down, an editable-text-control focus suppresses all
dispatch; otherwise the chord built from the event (key lower-cased,
control-or-platform-meta, alt, shift) is looked up, a hit triggers the
bound action and suppresses the default behavior, and a miss does
nothing. -/
theorem key_dispatch_gating_c7 (editableFocused : Bool) (e : KeyDownEvent) :
    (editableFocused = true → handleKeyDown editableFocused e = ⟨none, false⟩) ∧
    (editableFocused = false →
      ∀ action, jsObjectLookup keyboardShortcutDictionary (chordOfEvent e) = some action →
        handleKeyDown editableFocused e = ⟨some action, true⟩) ∧
    (editableFocused = false →
      jsObjectLookup keyboardShortcutDictionary (chordOfEvent e) = none →
        handleKeyDown editableFocused e = ⟨none, false⟩) := by
  refine ⟨fun h => ?_, fun h action hl => ?_, fun h hl => ?_⟩ <;>
    subst h <;> simp [handleKeyDown] <;> rw [hl]

/-- Witness for C7: the chord "Q" fires the previous-page action when focus
is not in a text control, and does not fire when it is. -/
theorem key_dispatch_gating_c7_witness :
    handleKeyDown false ⟨"q", false, false, false, false⟩ =
      ⟨some RegisteredActionsEnum.previousPage, true⟩ ∧
    handleKeyDown true ⟨"q", false, false, false, false⟩ = ⟨none, false⟩ :=
  ⟨(key_dispatch_gating_c7 false ⟨"q", false, false, false, false⟩).2.1 rfl
      RegisteredActionsEnum.previousPage (by decide),
    (key_dispatch_gating_c7 true ⟨"q", false, false, false, false⟩).1 rfl⟩

/-- Each wheel event leaves the zoom inside the clamp range. -/
theorem handleMouseWheel_zoom_mem (z : Rat) (e : CanvasWheelEvent) :
    (handleMouseWheel z e).zoom ∈ Set.Icc (7 / 20 : Rat) 25 := by
  simp only [handleMouseWheel, Set.mem_Icc]
  split_ifs <;> constructor <;> linarith

/-- Folding wheel events starting from any first event stays in range. -/
theorem zoomFold_mem (z : Rat) (e : CanvasWheelEvent) (rest : List CanvasWheelEvent) :
    List.foldl (fun z e => (handleMouseWheel z e).zoom) (handleMouseWheel z e).zoom rest ∈
      Set.Icc (7 / 20 : Rat) 25 := by
  induction rest generalizing z e with
  | nil => exact handleMouseWheel_zoom_mem z e
  | cons e' rest ih =>
    simp only [List.foldl_cons]
    exact ih (handleMouseWheel z e).zoom e'

/-- C4: each wheel event sets the zoom to
`clamp(previousZoom * 0.999 ^ delta, 0.35, 25)` pivoted at the cursor
position, and after any nonempty sequence of wheel events the zoom lies in
`[0.35, 25]` inclusive. -/
theorem zoom_clamp_c4 (initialZoom : Rat) (events : List CanvasWheelEvent) :
    (∀ (z : Rat) (e : CanvasWheelEvent),
      handleMouseWheel z e =
        ⟨e.offsetX, e.offsetY, clampSpec (7 / 20) 25 (z * (999 / 1000 : Rat) ^ e.deltaY)⟩) ∧
    (events ≠ [] →
      zoomAfterWheelEvents initialZoom events ∈ Set.Icc (7 / 20 : Rat) 25) := by
  constructor
  · intro z e
    simp only [handleMouseWheel, clampSpec, ZoomToPointCall.mk.injEq, true_and]
    rcases le_or_lt (z * (999 / 1000 : Rat) ^ e.deltaY) 25 with h | h
    · rw [if_neg (not_lt.mpr h), min_eq_right h]
      rcases le_or_lt (7 / 20 : Rat) (z * (999 / 1000 : Rat) ^ e.deltaY) with h' | h'
      · rw [if_neg (not_lt.mpr h'), max_eq_right h']
      · rw [if_pos h', max_eq_left (le_of_lt h')]
    · rw [if_pos h, min_eq_left (le_of_lt h), if_neg (by norm_num), max_eq_right (by norm_num)]
  · intro hne
    match events, hne with
    | e :: rest, _ =>
      simp only [zoomAfterWheelEvents, List.foldl_cons]
      exact zoomFold_mem initialZoom e rest

/-- Witness for C4 at a concrete wheel-event sequence. -/
theorem zoom_clamp_c4_witness :
    ([(⟨100, 0, 0⟩ : CanvasWheelEvent)] ≠ ([] : List CanvasWheelEvent)) ∧
    zoomAfterWheelEvents 1 [⟨100, 0, 0⟩] ∈ Set.Icc (7 / 20 : Rat) 25 :=
  ⟨by decide, (zoom_clamp_c4 1 [⟨100, 0, 0⟩]).2 (by decide)⟩

/-- Updating coordinates never changes the marcher identities on the
canvas. -/
theorem map_cmId_setFirstMarcherCoords (l : List CanvasMarcher) (i : Int)
    (nx ny : Rat) :
    (setFirstMarcherCoords l i nx ny).map CanvasMarcher.cmId =
      l.map CanvasMarcher.cmId := by
  induction l with
  | nil => rfl
  | cons cm rest ih =>
    simp only [setFirstMarcherCoords]
    split_ifs with h
    · simp
    · simpa using ih

/-- The marcher identities after one render loop are those of the working
canvas followed by the identities added for this snapshot. -/
theorem map_cmId_renderMarchersLoop (snapshot : List CanvasMarcher)
    (allMarchers : List Marcher) (positions : List MarcherPage)
    (canvas : List CanvasMarcher) :
    (renderMarchersLoop snapshot allMarchers positions canvas).map CanvasMarcher.cmId =
      canvas.map CanvasMarcher.cmId ++ renderAddedIds snapshot allMarchers positions := by
  induction positions generalizing canvas with
  | nil => simp [renderMarchersLoop, renderAddedIds]
  | cons mp rest ih =>
    simp only [renderMarchersLoop, renderAddedIds, List.filterMap_cons]
    cases hsnap : snapshot.find? (fun cm => cm.cmId == mp.marcher_id) with
    | some cm =>
      rw [ih, map_cmId_setFirstMarcherCoords]
      simp [renderAddedIds]
    | none =>
      cases hall : allMarchers.find? (fun m => m.id == mp.marcher_id) with
      | none => rw [ih]; simp [renderAddedIds]
      | some m => rw [ih]; simp [renderAddedIds]

/-- C9: a `renderMarchers` call never removes a visual marker: the marcher
identities on the canvas before the call form a prefix of those after it,
so every marker existing before the call (including markers for marchers
with no position in the supplied set) still exists after it. -/
theorem render_never_removes_c9 (canvas : List CanvasMarcher)
    (positions : List MarcherPage) (allMarchers : List Marcher) :
    ∃ added, (renderMarchers canvas positions allMarchers).map CanvasMarcher.cmId =
      canvas.map CanvasMarcher.cmId ++ added :=
  ⟨renderAddedIds canvas allMarchers positions,
    map_cmId_renderMarchersLoop canvas allMarchers positions canvas⟩

/-- A marcher identity present on the canvas makes the snapshot lookup
succeed. -/
theorem find_cmId_isSome_of_mem {l : List CanvasMarcher} {i : Int}
    (h : i ∈ l.map CanvasMarcher.cmId) :
    (l.find? (fun cm => cm.cmId == i)).isSome := by
  rcases List.mem_map.mp h with ⟨cm, hmem, hid⟩
  exact List.find?_isSome.mpr ⟨cm, hmem, by simp [hid]⟩

/-- After one render, rendering the same positions again adds nothing. -/
theorem renderAddedIds_after_render (canvas : List CanvasMarcher)
    (positions : List MarcherPage) (allMarchers : List Marcher) :
    renderAddedIds (renderMarchers canvas positions allMarchers) allMarchers positions = [] := by
  rw [renderAddedIds, List.filterMap_eq_nil_iff]
  intro mp hmp
  cases hfind : (renderMarchers canvas positions allMarchers).find?
      (fun cm => cm.cmId == mp.marcher_id) with
  | some cm => rfl
  | none =>
    cases hall : allMarchers.find? (fun m => m.id == mp.marcher_id) with
    | none => rfl
    | some m =>
      exfalso
      have hid : m.id = mp.marcher_id := by
        have := List.find?_some hall
        simpa using this
      have hmem : mp.marcher_id ∈
          (renderMarchers canvas positions allMarchers).map CanvasMarcher.cmId := by
        rw [renderMarchers, map_cmId_renderMarchersLoop canvas allMarchers positions canvas]
        by_cases hc : (canvas.find? (fun cm => cm.cmId == mp.marcher_id)).isSome
        · rcases List.find?_isSome.mp hc with ⟨cm, hcm, hpred⟩
          exact List.mem_append_left _ (List.mem_map.mpr ⟨cm, hcm, by simpa using hpred⟩)
        · have hcnone : canvas.find? (fun cm => cm.cmId == mp.marcher_id) = none := by
            cases hcc : canvas.find? (fun cm => cm.cmId == mp.marcher_id) with
            | none => rfl
            | some cm => rw [hcc] at hc; simp at hc
          refine List.mem_append_right _ (List.mem_filterMap.mpr ⟨mp, hmp, ?_⟩)
          rw [hcnone, hall]
          simpa using hid
      have := find_cmId_isSome_of_mem hmem
      rw [hfind] at this
      simp at this

/-- C8: `renderMarchers` is idempotent on the visual-marker set: a second
call with the same position set and marcher set changes neither the number
nor the identities of the live markers. -/
theorem render_idempotent_c8 (canvas : List CanvasMarcher)
    (positions : List MarcherPage) (allMarchers : List Marcher) :
    (renderMarchers (renderMarchers canvas positions allMarchers) positions
        allMarchers).map CanvasMarcher.cmId =
      (renderMarchers canvas positions allMarchers).map CanvasMarcher.cmId ∧
    (renderMarchers (renderMarchers canvas positions allMarchers) positions
        allMarchers).length =
      (renderMarchers canvas positions allMarchers).length := by
  have hids :
      (renderMarchers (renderMarchers canvas positions allMarchers) positions
          allMarchers).map CanvasMarcher.cmId =
        (renderMarchers canvas positions allMarchers).map CanvasMarcher.cmId := by
    rw [renderMarchers, map_cmId_renderMarchersLoop, renderAddedIds_after_render]
    simp
  refine ⟨hids, ?_⟩
  have := congrArg List.length hids
  simpa using this

/-- Membership in an ordered insertion. -/
theorem mem_insertOrdered {α : Type} (le : α → α → Bool) (x a : α) (l : List α) :
    a ∈ insertOrdered le x l ↔ a = x ∨ a ∈ l := by
  induction l with
  | nil => simp [insertOrdered]
  | cons y ys ih =>
    simp only [insertOrdered]
    split_ifs with h
    · constructor
      · intro hm
        rcases List.mem_cons.mp hm with rfl | hm
        · exact Or.inl rfl
        · exact Or.inr hm
      · intro hm
        rcases hm with rfl | hm
        · exact List.mem_cons_self _ _
        · exact List.mem_cons_of_mem _ hm
    · constructor
      · intro hm
        rcases List.mem_cons.mp hm with rfl | hm
        · exact Or.inr (List.mem_cons_self _ _)
        · rcases ih.mp hm with rfl | hm
          · exact Or.inl rfl
          · exact Or.inr (List.mem_cons_of_mem _ hm)
      · intro hm
        rcases hm with rfl | hm
        · exact List.mem_cons_of_mem _ (ih.mpr (Or.inl rfl))
        · rcases List.mem_cons.mp hm with rfl | hm
          · exact List.mem_cons_self _ _
          · exact List.mem_cons_of_mem _ (ih.mpr (Or.inr hm))

/-- Membership in the modelled sort. -/
theorem mem_sortJs {α : Type} (le : α → α → Bool) (a : α) (l : List α) :
    a ∈ sortJs le l ↔ a ∈ l := by
  induction l with
  | nil => simp [sortJs]
  | cons x xs ih => simp [sortJs, mem_insertOrdered, ih]

/-- An ordered insertion is never empty. -/
theorem insertOrdered_ne_nil {α : Type} (le : α → α → Bool) (x : α) (l : List α) :
    insertOrdered le x l ≠ [] := by
  cases l with
  | nil => simp [insertOrdered]
  | cons y ys =>
    simp only [insertOrdered]
    split_ifs <;> simp

/-- The modelled sort is empty exactly when its input is. -/
theorem sortJs_eq_nil_iff {α : Type} (le : α → α → Bool) (l : List α) :
    sortJs le l = [] ↔ l = [] := by
  cases l with
  | nil => simp [sortJs]
  | cons x xs =>
    simp only [sortJs]
    exact ⟨fun h => absurd h (insertOrdered_ne_nil le x (sortJs le xs)), fun h => by simp at h⟩

/-- Ordered insertion preserves sortedness, given totality and
transitivity on the elements involved. -/
theorem pairwise_insertOrdered {α : Type} (le : α → α → Bool) (S : α → Prop)
    (total : ∀ a b, le a b = true ∨ le b a = true)
    (htrans : ∀ a b c, S a → S b → S c → le a b = true → le b c = true → le a c = true)
    (x : α) (l : List α) (hx : S x) (hl : ∀ a ∈ l, S a)
    (hp : l.Pairwise (fun a b => le a b = true)) :
    (insertOrdered le x l).Pairwise (fun a b => le a b = true) := by
  induction l with
  | nil => simp [insertOrdered]
  | cons y ys ih =>
    rw [List.pairwise_cons] at hp
    obtain ⟨hy, hys⟩ := hp
    simp only [insertOrdered]
    split_ifs with hxy
    · refine List.Pairwise.cons ?_ (List.Pairwise.cons hy hys)
      intro a ha
      rcases List.mem_cons.mp ha with rfl | ha
      · exact hxy
      · exact htrans x y a hx (hl y (List.mem_cons_self _ _))
          (hl a (List.mem_cons_of_mem _ ha)) hxy (hy a ha)
    · have hyx : le y x = true := (total x y).resolve_left (by simpa using hxy)
      refine List.Pairwise.cons ?_
        (ih (fun a ha => hl a (List.mem_cons_of_mem _ ha)) hys)
      intro a ha
      rcases (mem_insertOrdered le x a ys).mp ha with rfl | ha
      · exact hyx
      · exact hy a ha

/-- The modelled sort is sorted, given totality and transitivity on the
list's elements. -/
theorem pairwise_sortJs {α : Type} (le : α → α → Bool) (S : α → Prop)
    (total : ∀ a b, le a b = true ∨ le b a = true)
    (htrans : ∀ a b c, S a → S b → S c → le a b = true → le b c = true → le a c = true)
    (l : List α) (hl : ∀ a ∈ l, S a) :
    (sortJs le l).Pairwise (fun a b => le a b = true) := by
  induction l with
  | nil => simp [sortJs]
  | cons x xs ih =>
    simp only [sortJs]
    exact pairwise_insertOrdered le S total htrans x (sortJs le xs)
      (hl x (List.mem_cons_self _ _))
      (fun a ha => hl a (List.mem_cons_of_mem _ ((mem_sortJs le a xs).mp ha)))
      (ih (fun a ha => hl a (List.mem_cons_of_mem _ ha)))

/-- In a sorted nonempty list the head is below every element, given
reflexivity. -/
theorem head_le_of_pairwise {α : Type} (le : α → α → Bool)
    (hrefl : ∀ a, le a a = true) (x : α) (l : List α)
    (hp : (x :: l).Pairwise (fun a b => le a b = true)) :
    ∀ a ∈ x :: l, le x a = true := by
  intro a ha
  rcases List.mem_cons.mp ha with rfl | ha
  · exact hrefl a
  · exact (List.pairwise_cons.mp hp).1 a ha

/-- In a sorted nonempty list the last element is above every element,
given reflexivity. -/
theorem le_getLast_of_pairwise {α : Type} (le : α → α → Bool)
    (hrefl : ∀ a, le a a = true) :
    ∀ (l : List α) (x : α), (x :: l).Pairwise (fun a b => le a b = true) →
      ∃ M, (x :: l).getLast? = some M ∧ M ∈ x :: l ∧ ∀ a ∈ x :: l, le a M = true := by
  intro l
  induction l with
  | nil =>
    intro x _
    refine ⟨x, rfl, List.mem_cons_self _ _, ?_⟩
    intro a ha
    rcases List.mem_cons.mp ha with rfl | ha
    · exact hrefl a
    · simp at ha
  | cons y ys ih =>
    intro x hp
    obtain ⟨M, h1, h2, h3⟩ := ih y (List.pairwise_cons.mp hp).2
    refine ⟨M, by simpa [List.getLast?_cons_cons] using h1,
      List.mem_cons_of_mem _ h2, ?_⟩
    intro a ha
    rcases List.mem_cons.mp ha with rfl | ha
    · exact (List.pairwise_cons.mp hp).1 M h2
    · exact h3 a ha

/-- The sort ordering unfolded: `a` may precede `b` exactly when the
comparator result is not positive. -/
theorem leBy_eq_true_iff (a b : StepSize) :
    StepSize.leBy a b = true ↔ ¬ JsNum.gtZero (StepSize.compare a b) := by
  rw [StepSize.leBy]
  exact @decide_eq_true_iff _ (Classical.propDecidable _)

/-- The comparator ordering is reflexive. -/
theorem leBy_refl (a : StepSize) : StepSize.leBy a a = true := by
  rw [leBy_eq_true_iff]
  cases h : a.stepsPerFiveYards <;>
    simp [StepSize.compare, h, JsNum.sub, JsNum.gtZero]

/-- The comparator ordering is total. -/
theorem leBy_total (a b : StepSize) :
    StepSize.leBy a b = true ∨ StepSize.leBy b a = true := by
  rw [leBy_eq_true_iff, leBy_eq_true_iff]
  cases ha : a.stepsPerFiveYards <;> cases hb : b.stepsPerFiveYards <;>
    simp [StepSize.compare, ha, hb, JsNum.sub, JsNum.gtZero] <;>
    first
    | exact le_total _ _
    | linarith

/-- The comparator ordering is transitive on step sizes whose values are
neither NaN: NaN only arises for a zero-count page, in which case every
step size of the batch is NaN. -/
theorem leBy_trans_not_nan (a b c : StepSize)
    (ha : a.stepsPerFiveYards ≠ JsNum.nan) (hb : b.stepsPerFiveYards ≠ JsNum.nan)
    (hc : c.stepsPerFiveYards ≠ JsNum.nan)
    (hab : StepSize.leBy a b = true) (hbc : StepSize.leBy b c = true) :
    StepSize.leBy a c = true := by
  rw [leBy_eq_true_iff] at hab hbc ⊢
  cases hA : a.stepsPerFiveYards <;> cases hB : b.stepsPerFiveYards <;>
      cases hC : c.stepsPerFiveYards <;>
    simp_all [StepSize.compare, JsNum.sub, JsNum.gtZero] <;> linarith

/-- Two NaN-valued step sizes always compare as equal. -/
theorem leBy_of_nan (a b : StepSize) (ha : a.stepsPerFiveYards = JsNum.nan) :
    StepSize.leBy a b = true := by
  rw [leBy_eq_true_iff]
  cases hb : b.stepsPerFiveYards <;>
    simp [StepSize.compare, ha, hb, JsNum.sub, JsNum.gtZero]

/-- The shape of `calculateStepSize`: NaN exactly for zero counts, and
never negative infinity. -/
theorem calculateStepSize_shape (sx sy ex ey c p : Rat) :
    (calculateStepSize sx sy ex ey c p = JsNum.nan ↔ c = 0) ∧
    calculateStepSize sx sy ex ey c p ≠ JsNum.negInf := by
  rw [calculateStepSize]
  split_ifs <;> simp_all

/-- Every step size computed for a page has a NaN value exactly when the
page's counts are zero, and is never negative infinity. -/
theorem createStepSizes_shape (marchers : List Marcher)
    (marcherPages : List MarcherPage) (page : Page) (fp : FieldProperties) :
    ∀ s ∈ StepSize.createStepSizesForMarchers marchers marcherPages page fp,
      (s.stepsPerFiveYards = JsNum.nan ↔ page.counts = 0) ∧
      s.stepsPerFiveYards ≠ JsNum.negInf := by
  intro s hs
  rw [StepSize.createStepSizesForMarchers] at hs
  rw [List.reduceOption_mem_iff] at hs
  rcases List.mem_map.mp hs with ⟨m, _, hm⟩
  cases hep : (marcherPages.filter (fun mp => mp.page_id == page.id)).find?
      (fun mp => mp.marcher_id == m.id) with
  | none => rw [hep] at hm; simp at hm
  | some e =>
    rw [hep] at hm
    cases hsp : (marcherPages.filter (fun mp => mp.page_id == page.id - 1)).find?
        (fun mp => mp.marcher_id == m.id) with
    | none => rw [hsp] at hm; simp [StepSize.createStepSizeForMarcher] at hm
    | some st =>
      rw [hsp] at hm
      simp only [StepSize.createStepSizeForMarcher, Option.some.injEq] at hm
      have hval : s.stepsPerFiveYards =
          calculateStepSize st.x st.y e.x e.y page.counts fp.pixelsPerStep := by
        rw [← hm]; rfl
      rw [hval]
      exact calculateStepSize_shape st.x st.y e.x e.y page.counts fp.pixelsPerStep

/-- C3: `StepSize.compare a b` is positive exactly when
`a.stepsPerFiveYards` is less than `b.stepsPerFiveYards` (so a smaller
steps-per-five-yards value is the physically larger step: of the values 4
and 8, the 4-valued one compares as larger); `getMinAndMaxStepSizesForMarchers`
returns as `min` a least and as `max` a greatest element of the computed
step sizes under this comparator, and both are undefined when the computed
list is empty. -/
theorem comparator_inversion_c3 (marchers : List Marcher)
    (marcherPages : List MarcherPage) (page : Page) (fp : FieldProperties) :
    (∀ a b : StepSize,
      JsNum.gtZero (StepSize.compare a b) ↔
        JsNum.jsLt a.stepsPerFiveYards b.stepsPerFiveYards) ∧
    JsNum.gtZero (StepSize.compare ⟨1, JsNum.fin 4⟩ ⟨2, JsNum.fin 8⟩) ∧
    (StepSize.createStepSizesForMarchers marchers marcherPages page fp = [] →
      (StepSize.getMinAndMaxStepSizesForMarchers marchers marcherPages page fp).min = none ∧
      (StepSize.getMinAndMaxStepSizesForMarchers marchers marcherPages page fp).max = none) ∧
    (StepSize.createStepSizesForMarchers marchers marcherPages page fp ≠ [] →
      (∃ mn, (StepSize.getMinAndMaxStepSizesForMarchers marchers marcherPages page fp).min = some mn ∧
        mn ∈ StepSize.createStepSizesForMarchers marchers marcherPages page fp ∧
        ∀ x ∈ StepSize.createStepSizesForMarchers marchers marcherPages page fp,
          ¬ JsNum.gtZero (StepSize.compare mn x)) ∧
      (∃ mx, (StepSize.getMinAndMaxStepSizesForMarchers marchers marcherPages page fp).max = some mx ∧
        mx ∈ StepSize.createStepSizesForMarchers marchers marcherPages page fp ∧
        ∀ x ∈ StepSize.createStepSizesForMarchers marchers marcherPages page fp,
          ¬ JsNum.gtZero (StepSize.compare x mx))) := by
  refine ⟨?_, ?_, ?_, ?_⟩
  · intro a b
    cases ha : a.stepsPerFiveYards <;> cases hb : b.stepsPerFiveYards <;>
      simp [StepSize.compare, ha, hb, JsNum.sub, JsNum.gtZero, JsNum.jsLt, sub_pos]
  · norm_num [StepSize.compare, JsNum.sub, JsNum.gtZero]
  · intro hL
    rw [StepSize.getMinAndMaxStepSizesForMarchers, hL]
    simp [sortJs]
  · intro hL
    have hU := createStepSizes_shape marchers marcherPages page fp
    set L := StepSize.createStepSizesForMarchers marchers marcherPages page fp with hLdef
    have htrans : ∀ a b c : StepSize, a ∈ L → b ∈ L → c ∈ L →
        StepSize.leBy a b = true → StepSize.leBy b c = true →
        StepSize.leBy a c = true := by
      intro a b c haL hbL hcL hab hbc
      by_cases h0 : page.counts = 0
      · exact leBy_of_nan a c ((hU a haL).1.mpr h0)
      · exact leBy_trans_not_nan a b c
          (fun hn => h0 ((hU a haL).1.mp hn))
          (fun hn => h0 ((hU b hbL).1.mp hn))
          (fun hn => h0 ((hU c hcL).1.mp hn)) hab hbc
    have hpair : (sortJs StepSize.leBy L).Pairwise
        (fun a b => StepSize.leBy a b = true) :=
      pairwise_sortJs StepSize.leBy (fun s => s ∈ L) leBy_total htrans L
        (fun a ha => ha)
    have hsortne : sortJs StepSize.leBy L ≠ [] := by
      intro h
      exact hL ((sortJs_eq_nil_iff _ _).mp h)
    obtain ⟨hd, tl, hct⟩ : ∃ hd tl, sortJs StepSize.leBy L = hd :: tl := by
      cases hc : sortJs StepSize.leBy L with
      | nil => exact absurd hc hsortne
      | cons hd tl => exact ⟨hd, tl, rfl⟩
    have hminmax :
        StepSize.getMinAndMaxStepSizesForMarchers marchers marcherPages page fp =
          ⟨(hd :: tl).head?, (hd :: tl).getLast?⟩ := by
      rw [StepSize.getMinAndMaxStepSizesForMarchers, ← hLdef, hct]
      simp
    rw [hct] at hpair
    constructor
    · refine ⟨hd, by rw [hminmax]; rfl, ?_, ?_⟩
      · have : hd ∈ sortJs StepSize.leBy L := by
          rw [hct]; exact List.mem_cons_self _ _
        exact (mem_sortJs _ _ _).mp this
      · intro x hx
        have hx' : x ∈ hd :: tl := by
          rw [← hct]; exact (mem_sortJs _ _ _).mpr hx
        exact (leBy_eq_true_iff hd x).mp
          (head_le_of_pairwise StepSize.leBy leBy_refl hd tl hpair x hx')
    · obtain ⟨M, hM1, hM2, hM3⟩ :=
        le_getLast_of_pairwise StepSize.leBy leBy_refl tl hd hpair
      refine ⟨M, by rw [hminmax]; exact hM1, ?_, ?_⟩
      · have : M ∈ sortJs StepSize.leBy L := by rw [hct]; exact hM2
        exact (mem_sortJs _ _ _).mp this
      · intro x hx
        have hx' : x ∈ hd :: tl := by
          rw [← hct]; exact (mem_sortJs _ _ _).mpr hx
        exact (leBy_eq_true_iff x M).mp (hM3 x hx')

/-- Witness for C3: the empty batch yields undefined min and max, and a
one-marcher batch yields a defined min. -/
theorem comparator_inversion_c3_witness :
    StepSize.createStepSizesForMarchers [] [] ⟨1, 8, 1⟩ ⟨10⟩ = [] ∧
    (StepSize.getMinAndMaxStepSizesForMarchers [] [] ⟨1, 8, 1⟩ ⟨10⟩).min = none ∧
    (StepSize.getMinAndMaxStepSizesForMarchers [] [] ⟨1, 8, 1⟩ ⟨10⟩).max = none ∧
    StepSize.createStepSizesForMarchers [⟨1⟩] [⟨1, 1, 0, 0⟩, ⟨1, 2, 0, 10⟩]
      ⟨2, 1, 1⟩ ⟨10⟩ ≠ [] ∧
    ∃ mn, (StepSize.getMinAndMaxStepSizesForMarchers [⟨1⟩]
      [⟨1, 1, 0, 0⟩, ⟨1, 2, 0, 10⟩] ⟨2, 1, 1⟩ ⟨10⟩).min = some mn := by
  have hempty := (comparator_inversion_c3 [] [] ⟨1, 8, 1⟩ ⟨10⟩).2.2.1 rfl
  have hne : StepSize.createStepSizesForMarchers [⟨1⟩]
      [⟨1, 1, 0, 0⟩, ⟨1, 2, 0, 10⟩] ⟨2, 1, 1⟩ ⟨10⟩ ≠ [] := by
    rw [show StepSize.createStepSizesForMarchers [⟨1⟩]
      [⟨1, 1, 0, 0⟩, ⟨1, 2, 0, 10⟩] ⟨2, 1, 1⟩ ⟨10⟩ =
      [StepSize.make 1 0 0 0 10 1 ⟨10⟩] from rfl]
    simp
  obtain ⟨⟨mn, hmn, _, _⟩, _⟩ :=
    (comparator_inversion_c3 [⟨1⟩] [⟨1, 1, 0, 0⟩, ⟨1, 2, 0, 10⟩] ⟨2, 1, 1⟩ ⟨10⟩).2.2.2 hne
  exact ⟨rfl, hempty.1, hempty.2, hne, mn, hmn⟩

/-- The lookup in a page-filtered record list misses exactly when no record
matches both the page identity and the marcher identity. -/
theorem find_in_filter_eq_none_iff (mps : List MarcherPage) (pid i : Int) :
    ((mps.filter (fun mp => mp.page_id == pid)).find?
        (fun mp => mp.marcher_id == i) = none) ↔
      mps.any (fun mp => mp.page_id == pid && mp.marcher_id == i) = false := by
  rw [List.find?_eq_none, List.any_eq_false]
  constructor
  · intro h mp hmp hpred
    rw [Bool.and_eq_true] at hpred
    exact h mp (List.mem_filter.mpr ⟨hmp, hpred.1⟩) hpred.2
  · intro h mp hmp hpred
    obtain ⟨hmem, hpage⟩ := List.mem_filter.mp hmp
    exact h mp hmem (by rw [Bool.and_eq_true]; exact ⟨hpage, hpred⟩)

/-- A hit in a page-filtered record list carries the marcher identity and
witnesses a record matching both identities. -/
theorem find_in_filter_some {mps : List MarcherPage} {pid i : Int} {e : MarcherPage}
    (h : (mps.filter (fun mp => mp.page_id == pid)).find?
        (fun mp => mp.marcher_id == i) = some e) :
    e.marcher_id = i ∧
      mps.any (fun mp => mp.page_id == pid && mp.marcher_id == i) = true := by
  have hpred := List.find?_some h
  have hmem := List.mem_of_find?_eq_some h
  obtain ⟨hmem', hpage⟩ := List.mem_filter.mp hmem
  refine ⟨by simpa using hpred, ?_⟩
  rw [List.any_eq_true]
  exact ⟨e, hmem', by rw [Bool.and_eq_true]; exact ⟨hpage, hpred⟩⟩

/-- The step-size constructor binds the given marcher identity. -/
theorem StepSize.make_marcher_id (i : Int) (sx sy ex ey c : Rat)
    (fp : FieldProperties) :
    (StepSize.make i sx sy ex ey c fp).marcher_id = i := rfl

/-- C10: in the batch step-size computation each marcher's starting
position is its record on the page with identity `page.id - 1` (not the
sequence-order predecessor); a marcher lacking an ending record on the
page or a starting record on `page.id - 1` is excluded, so with
non-contiguous page identities every marcher is excluded. -/
theorem previous_page_identity_c10 (marchers : List Marcher)
    (marcherPages : List MarcherPage) (page : Page) (fp : FieldProperties) :
    (StepSize.createStepSizesForMarchers marchers marcherPages page fp).map
        StepSize.marcher_id =
      (marchers.filter (fun m =>
        marcherPages.any (fun mp => mp.page_id == page.id && mp.marcher_id == m.id) &&
        marcherPages.any (fun mp =>
          mp.page_id == page.id - 1 && mp.marcher_id == m.id))).map Marcher.id ∧
    ((∀ mp ∈ marcherPages, mp.page_id ≠ page.id - 1) →
      StepSize.createStepSizesForMarchers marchers marcherPages page fp = []) := by
  have main : ∀ ms : List Marcher,
      (StepSize.createStepSizesForMarchers ms marcherPages page fp).map
          StepSize.marcher_id =
        (ms.filter (fun m =>
          marcherPages.any (fun mp => mp.page_id == page.id && mp.marcher_id == m.id) &&
          marcherPages.any (fun mp =>
            mp.page_id == page.id - 1 && mp.marcher_id == m.id))).map Marcher.id := by
    intro ms
    simp only [StepSize.createStepSizesForMarchers]
    induction ms with
    | nil => rfl
    | cons m rest ih =>
      simp only [List.map_cons, List.filter_cons]
      cases hep : (marcherPages.filter (fun mp => mp.page_id == page.id)).find?
          (fun mp => mp.marcher_id == m.id) with
      | none =>
        have hany := (find_in_filter_eq_none_iff marcherPages page.id m.id).mp hep
        rw [hany]
        simpa using ih
      | some e =>
        have hanyE := (find_in_filter_some hep).2
        cases hsp : (marcherPages.filter (fun mp => mp.page_id == page.id - 1)).find?
            (fun mp => mp.marcher_id == m.id) with
        | none =>
          have hanyS := (find_in_filter_eq_none_iff marcherPages (page.id - 1) m.id).mp hsp
          rw [hanyE, hanyS]
          simpa [StepSize.createStepSizeForMarcher] using ih
        | some s =>
          have hanyS := (find_in_filter_some hsp).2
          have hid := (find_in_filter_some hep).1
          rw [hanyE, hanyS]
          simp only [StepSize.createStepSizeForMarcher, List.reduceOption_cons_of_some,
            List.map_cons, StepSize.make_marcher_id, Bool.and_self, if_true]
          rw [hid]
          exact congrArg (fun l => m.id :: l) ih
  refine ⟨main marchers, ?_⟩
  intro h
  have hfilter : marchers.filter (fun m =>
      marcherPages.any (fun mp => mp.page_id == page.id && mp.marcher_id == m.id) &&
      marcherPages.any (fun mp =>
        mp.page_id == page.id - 1 && mp.marcher_id == m.id)) = [] := by
    rw [List.filter_eq_nil]
    intro m _
    have hanyS : marcherPages.any (fun mp =>
        mp.page_id == page.id - 1 && mp.marcher_id == m.id) = false := by
      rw [List.any_eq_false]
      intro mp hmp hpred
      rw [Bool.and_eq_true] at hpred
      exact h mp hmp (by simpa using hpred.1)
    rw [hanyS, Bool.and_false]
    simp
  have hmap := main marchers
  rw [hfilter] at hmap
  simp only [List.map_nil] at hmap
  exact List.map_eq_nil.mp hmap

/-- Witness for C10: with positions only on page 5 and the page identity 7,
no record lies on page id 6, so every marcher is excluded. -/
theorem previous_page_identity_c10_witness :
    (∀ mp ∈ [(⟨1, 5, 0, 0⟩ : MarcherPage)], mp.page_id ≠ (Page.mk 7 8 2).id - 1) ∧
    StepSize.createStepSizesForMarchers [⟨1⟩] [⟨1, 5, 0, 0⟩] ⟨7, 8, 2⟩ ⟨10⟩ = [] :=
  ⟨by decide,
    (previous_page_identity_c10 [⟨1⟩] [⟨1, 5, 0, 0⟩] ⟨7, 8, 2⟩ ⟨10⟩).2 (by decide)⟩

/-- C1: `stepSize` matches its reference definition: zero counts displays
as class Undefined; zero Euclidean pixel distance displays as class Hold;
otherwise the numeric value is
`180 / (((distance / pixelsPerStep) * 22.5) / counts)`, a value rounding
above 64 displays as class Tiny, and in particular `pixelsPerStep = 10`,
start `(0,0)`, end `(0,10)`, `counts = 1` yields value 8 displayed as
"8 to 5". -/
theorem step_size_reference_c1 (marcherId : Int) (sx sy ex ey counts : Rat)
    (fp : FieldProperties) :
    (counts = 0 →
      (StepSize.make marcherId sx sy ex ey counts fp).displayString =
        DisplayClass.undefinedClass) ∧
    (counts ≠ 0 → distanceInPixels sx sy ex ey = 0 →
      (StepSize.make marcherId sx sy ex ey counts fp).displayString =
        DisplayClass.holdClass) ∧
    (counts ≠ 0 → distanceInPixels sx sy ex ey ≠ 0 →
      (StepSize.make marcherId sx sy ex ey counts fp).stepsPerFiveYards =
        JsNum.fin (180 /
          (((distanceInPixels sx sy ex ey / (fp.pixelsPerStep : Real)) * 22.5) /
            (counts : Real))) ∧
      (∀ v : Real,
        (StepSize.make marcherId sx sy ex ey counts fp).stepsPerFiveYards = JsNum.fin v →
        ((round (v * 10) : Int) : Real) / 10 > 64 →
        (StepSize.make marcherId sx sy ex ey counts fp).displayString =
          DisplayClass.tinyClass)) ∧
    ((StepSize.make 1 0 0 0 10 1 ⟨10⟩).stepsPerFiveYards = JsNum.fin 8 ∧
      (StepSize.make 1 0 0 0 10 1 ⟨10⟩).displayString =
        DisplayClass.toFive (JsNum.fin 8)) := by
  refine ⟨?_, ?_, ?_, ?_⟩
  · intro h
    simp [StepSize.make, calculateStepSize, h, StepSize.displayString]
  · intro h hd
    simp [StepSize.make, calculateStepSize, h, hd, StepSize.displayString]
  · intro h hd
    constructor
    · show calculateStepSize sx sy ex ey counts fp.pixelsPerStep = _
      rw [calculateStepSize, if_neg h, if_neg hd]
      norm_num [INCHES_PER_YARD]
    · intro v hv hgt
      simp only [StepSize.displayString, hv]
      rw [if_pos hgt]
  · have hdist : distanceInPixels 0 0 0 10 = 10 := by
      have h1 : distanceInPixels 0 0 0 10 = Real.sqrt 100 := by
        rw [distanceInPixels]
        norm_num
      rw [h1, show (100 : Real) = 10 ^ 2 by norm_num,
        Real.sqrt_sq (by norm_num : (0 : Real) ≤ 10)]
    have hval : (StepSize.make 1 0 0 0 10 1 ⟨10⟩).stepsPerFiveYards = JsNum.fin 8 := by
      show calculateStepSize 0 0 0 10 1 10 = JsNum.fin 8
      rw [calculateStepSize, if_neg (by norm_num : ¬ (1 : Rat) = 0), hdist,
        if_neg (by norm_num : ¬ (10 : Real) = 0)]
      norm_num [INCHES_PER_YARD]
    refine ⟨hval, ?_⟩
    simp only [StepSize.displayString, hval]
    have hr : round ((8 : Real) * 10) = (80 : Int) := by norm_num [round_eq]
    rw [hr, if_neg (by norm_num : ¬ ((80 : Int) : Real) / 10 > 64)]
    norm_num

/-- Witness for C1: the concrete undefined, hold, numeric and tiny cases. -/
theorem step_size_reference_c1_witness :
    (StepSize.make 1 0 0 0 0 0 ⟨10⟩).displayString = DisplayClass.undefinedClass ∧
    (StepSize.make 1 0 0 0 0 4 ⟨10⟩).displayString = DisplayClass.holdClass ∧
    (StepSize.make 1 0 0 0 10 1 ⟨10⟩).stepsPerFiveYards = JsNum.fin 8 ∧
    (StepSize.make 1 0 0 0 10 1 ⟨10⟩).displayString = DisplayClass.toFive (JsNum.fin 8) ∧
    (StepSize.make 1 0 0 0 10 1000 ⟨10⟩).displayString = DisplayClass.tinyClass := by
  have hdist0 : distanceInPixels 0 0 0 0 = 0 := by
    rw [distanceInPixels]
    norm_num
  have hdist10 : distanceInPixels 0 0 0 10 = 10 := by
    have h1 : distanceInPixels 0 0 0 10 = Real.sqrt 100 := by
      rw [distanceInPixels]
      norm_num
    rw [h1, show (100 : Real) = 10 ^ 2 by norm_num,
      Real.sqrt_sq (by norm_num : (0 : Real) ≤ 10)]
  have h4 := (step_size_reference_c1 1 0 0 0 10 1 ⟨10⟩).2.2.2
  have htiny : (StepSize.make 1 0 0 0 10 1000 ⟨10⟩).displayString =
      DisplayClass.tinyClass := by
    obtain ⟨hsteps, htinyimp⟩ :=
      (step_size_reference_c1 1 0 0 0 10 1000 ⟨10⟩).2.2.1
        (by norm_num) (by rw [hdist10]; norm_num)
    have hv : (StepSize.make 1 0 0 0 10 1000 ⟨10⟩).stepsPerFiveYards =
        JsNum.fin 8000 := by
      rw [hsteps, hdist10]
      norm_num
    exact htinyimp 8000 hv (by norm_num [round_eq])
  exact ⟨(step_size_reference_c1 1 0 0 0 0 0 ⟨10⟩).1 rfl,
    (step_size_reference_c1 1 0 0 0 0 4 ⟨10⟩).2.1 (by norm_num) hdist0,
    h4.1, h4.2, htiny⟩
